import Mathlib

/-!
Shallow embedding of the nRF51 HAL timer driver
(hw/mcu/nordic/nrf51xxx/src/hal_timer.c) and proofs about its
deadline-queue / compare-arming logic.

Machine integers are modelled as Nat with explicit reduction mod 2^32
(the width of uint32_t) or mod 2^16 (the narrow hardware counter).
The intrusive TAILQ of pending software timers is modelled as a Lean
list; the TAILQ membership test `link.tqe_prev != NULL` is modelled by
the Boolean field `linked`, and pointer identity of list nodes by the
field `id`.  Hardware registers are explicit record fields and the
NVIC pending flag of the device interrupt is the field `irq_pending`.
-/

namespace NRF51

/-- Numeric value of the errno constant EINVAL. -/
def EINVAL : Nat := 22

/-- Width of uint32_t arithmetic, 2 ^ 32. -/
def W : Nat := 4294967296

/-- Half of the uint32_t range, 2 ^ 31. -/
def HALF : Nat := 2147483648

/-- Signed 32-bit difference `(int32_t)(a - b)` as used throughout
hal_timer.c for wraparound-aware tick comparison.  The operands are first
reduced to uint32_t, the subtraction wraps mod 2^32 and the result is
reinterpreted as a signed two-complement value. -/
def sdiff32 (a b : Nat) : Int :=
  if (a % W + (W - b % W)) % W < HALF then (((a % W + (W - b % W)) % W : Nat) : Int)
  else (((a % W + (W - b % W)) % W : Nat) : Int) - (W : Int)

/-- Model of `struct hal_timer`: a client-owned software timer descriptor.
The field `cb_func` records whether the callback pointer is non-NULL,
`linked` records whether `link.tqe_prev != NULL` (queue membership), and
`id` stands for the address of the node (pointer identity). -/
structure hal_timer where
  id : Nat
  cb_func : Bool
  expiry : Nat
  linked : Bool
deriving DecidableEq

/-- Model of the NRF_TIMER_Type register block, restricted to the state the
driver reads or writes: the free-running counter (captured through
CC[NRF_TIMER_CC_READ]), the output-compare register CC[NRF_TIMER_CC_INT],
the two compare event flags, the compare interrupt enable bit
(INTENSET / INTENCLR) and the running state (TASKS_START / TASKS_STOP). -/
structure NRF_TIMER_Type where
  counter : Nat
  cc_int : Nat
  ev_cmp_int : Bool
  ev_cmp_ovf : Bool
  inten_cmp : Bool
  running : Bool
deriving DecidableEq

/-- Model of `struct nrf51_hal_timer`: one per-device record.  The field
`irq_pending` models the NVIC pending bit of `tmr_irq_num`, and
`hal_timer_q` is the TAILQ of pending software timers in queue order. -/
structure nrf51_hal_timer where
  tmr_enabled : Bool
  tmr_16bit : Bool
  tmr_cntr : Nat
  tmr_freq : Nat
  tmr_reg : NRF_TIMER_Type
  irq_pending : Bool
  hal_timer_q : List hal_timer
deriving DecidableEq

/-- Model of `nrf_read_timer_cntr`: force a capture of the free-running
counter and read it.  In 16-bit BITMODE the hardware counter holds only the
low 16 bits; in 32-bit mode the full uint32_t value. -/
def nrf_read_timer_cntr (b : nrf51_hal_timer) : Nat :=
  if b.tmr_16bit then b.tmr_reg.counter % 65536 else b.tmr_reg.counter % W

/-- Model of `nrf_timer_set_ocmp`: program the output compare for the given
expiry tick.  Mirrors the source line by line: first INTENCLR, then in
16-bit mode compute `temp = expiry & 0xffff0000` (written here as the
arithmetic high half) and the signed epoch difference against tmr_cntr;
a negative difference force-pends the interrupt, zero programs the low
16 bits and force-pends only when the re-read counter is strictly greater,
and a positive difference defers (compare left disabled).  In 32-bit mode
the full compare is programmed and the force-pend test is the signed
comparison `(int32_t)(cntr - expiry) >= 0`. -/
def nrf_timer_set_ocmp (b : nrf51_hal_timer) (expiry : Nat) : nrf51_hal_timer :=
  let b0 := { b with tmr_reg := { b.tmr_reg with inten_cmp := false } }
  if b0.tmr_16bit then
    let temp := expiry % W / 65536 * 65536
    let delta_t := sdiff32 temp b0.tmr_cntr
    if delta_t < 0 then { b0 with irq_pending := true }
    else if delta_t = 0 then
      let expiry16 := expiry % 65536
      let b1 := { b0 with tmr_reg := { b0.tmr_reg with
        cc_int := expiry16, ev_cmp_int := false, inten_cmp := true } }
      if expiry16 < nrf_read_timer_cntr b1 then { b1 with irq_pending := true }
      else b1
    else b0
  else
    let b1 := { b0 with tmr_reg := { b0.tmr_reg with
      cc_int := expiry % W, ev_cmp_int := false, inten_cmp := true } }
    if 0 ≤ sdiff32 (nrf_read_timer_cntr b1) expiry then { b1 with irq_pending := true }
    else b1

/-- Model of `nrf_timer_disable_ocmp`: INTENCLR of the compare interrupt. -/
def nrf_timer_disable_ocmp (b : nrf51_hal_timer) : nrf51_hal_timer :=
  { b with tmr_reg := { b.tmr_reg with inten_cmp := false } }

/-- Model of `hal_timer_read_bsptimer`: return the current wide tick.  In
16-bit mode, under a critical section, read the overflow tally, capture the
low 16 bits, and when the overflow event flag is set add 65536 to the tally
(the C tally `tcntr` is a uint32_t, so `tcntr += 65536` wraps mod 2^32),
re-read the low bits, clear the flag and set the NVIC pending bit; the
result ORs the tally with the low bits, exactly as `tcntr |= low` (the OR
of an in-range uint32_t with a 16-bit value cannot overflow, so no further
reduction happens there). -/
def hal_timer_read_bsptimer (b : nrf51_hal_timer) : Nat × nrf51_hal_timer :=
  if b.tmr_16bit then
    let tcntr := b.tmr_cntr
    let low := nrf_read_timer_cntr b
    if b.tmr_reg.ev_cmp_ovf then
      let tcntr2 := (tcntr + 65536) % W
      let b1 := { b with tmr_cntr := tcntr2 }
      let low2 := nrf_read_timer_cntr b1
      let b2 := { b1 with tmr_reg := { b1.tmr_reg with ev_cmp_ovf := false } }
      let b3 := { b2 with irq_pending := true }
      (tcntr2 ||| low2, b3)
    else (tcntr ||| low, b)
  else (nrf_read_timer_cntr b, b)

/-- Drain loop of `hal_timer_chk_queue`, recursing on the queue list.  Each
iteration re-reads the current tick (through `hal_timer_read_bsptimer` in
16-bit mode, plain counter capture otherwise, exactly the dichotomy of the
source), and while the signed difference `(int32_t)(tcntr - expiry) >= 0`
holds for the head it unlinks the head (`link.tqe_prev = NULL`) and then
dispatches its callback.  The returned triple is the remaining queue, the
device state, and the fired timers (as passed to their callbacks, i.e.
already unlinked) each paired with the tick value at its dispatch. -/
def chkLoopAux : List hal_timer → nrf51_hal_timer →
    List hal_timer × nrf51_hal_timer × List (hal_timer × Nat)
  | [], b => ([], b, [])
  | t :: rest, b =>
    let pr := hal_timer_read_bsptimer b
    if 0 ≤ sdiff32 pr.1 t.expiry then
      let res := chkLoopAux rest pr.2
      (res.1, res.2.1, ({ t with linked := false }, pr.1) :: res.2.2)
    else (t :: rest, pr.2, [])

/-- Model of `hal_timer_chk_queue`: run the drain loop, then re-arm the
output compare for the new queue head, or disable it when the queue is
empty.  Returns the new device state and the list of dispatched timers. -/
def hal_timer_chk_queue (b : nrf51_hal_timer) :
    nrf51_hal_timer × List (hal_timer × Nat) :=
  let res := chkLoopAux b.hal_timer_q b
  let b1 := { res.2.1 with hal_timer_q := res.1 }
  match res.1 with
  | tm :: _ => (nrf_timer_set_ocmp b1 tm.expiry, res.2.2)
  | [] => (nrf_timer_disable_ocmp b1, res.2.2)

/-- Sorted insertion of `hal_timer_start_at`: walk the queue and insert the
new timer before the first entry it is strictly before in signed 32-bit
wraparound order (`(int32_t)(timer->expiry - entry->expiry) < 0`),
otherwise append at the tail.  An empty queue gets the timer as head. -/
def hal_timer_q_insert (t : hal_timer) : List hal_timer → List hal_timer
  | [] => [t]
  | e :: rest =>
    if sdiff32 t.expiry e.expiry < 0 then t :: e :: rest
    else e :: hal_timer_q_insert t rest

/-- Model of `hal_timer_start_at`.  The argument `timer` is an Option to
model a possibly NULL pointer.  Returns EINVAL, leaving timer and device
untouched, when the pointer is NULL, the timer is already linked, or it has
no callback; otherwise stores the expiry (truncated to uint32_t), inserts
in sorted order, re-arms the compare if the new timer became the queue
head (pointer comparison against TAILQ_FIRST, modelled by id equality) and
returns 0 together with the updated timer node. -/
def hal_timer_start_at (timer : Option hal_timer) (tick : Nat)
    (b : nrf51_hal_timer) : Nat × Option hal_timer × nrf51_hal_timer :=
  match timer with
  | none => (EINVAL, none, b)
  | some t =>
    if t.linked || !t.cb_func then (EINVAL, some t, b)
    else
      let t1 := { t with expiry := tick % W, linked := true }
      let q := hal_timer_q_insert t1 b.hal_timer_q
      let b1 := { b with hal_timer_q := q }
      let b2 := if q.head?.map hal_timer.id = some t1.id
        then nrf_timer_set_ocmp b1 t1.expiry else b1
      (0, some t1, b2)

/-- Removal of the first queue node with the given identity, modelling
TAILQ_REMOVE of a node known by its address. -/
def removeById (i : Nat) : List hal_timer → List hal_timer
  | [] => []
  | e :: rest => if e.id = i then rest else e :: removeById i rest

/-- Model of `hal_timer_stop`.  A NULL pointer yields EINVAL.  A timer that
is not linked is left alone and 0 is returned.  Otherwise the node is
removed; when it was the queue head the compare is re-armed for the next
entry, or disabled when the queue became empty. -/
def hal_timer_stop (timer : Option hal_timer) (b : nrf51_hal_timer) :
    Nat × nrf51_hal_timer :=
  match timer with
  | none => (EINVAL, b)
  | some t =>
    if t.linked then
      let isHead : Bool := b.hal_timer_q.head?.map hal_timer.id == some t.id
      let q := removeById t.id b.hal_timer_q
      let b1 := { b with hal_timer_q := q }
      if isHead then
        match q with
        | e :: _ => (0, nrf_timer_set_ocmp b1 e.expiry)
        | [] => (0, nrf_timer_disable_ocmp b1)
      else (0, b1)
    else (0, b)

/-- Prescaler search loop of `hal_timer_init`: `for (prescaler = 1;
prescaler < 10; ++prescaler)` looking for the first exponent with
`div <= (1 << prescaler)`; on a hit, decrement the exponent exactly when
`div - (1 << (prescaler - 1)) < (1 << prescaler) - div`.  The fuel
argument counts the remaining iterations (9 at the initial call). -/
def presLoop (dv : Nat) : Nat → Nat → Nat
  | 0, p => p
  | fuel + 1, p =>
    if dv ≤ 2 ^ p then (if dv - 2 ^ (p - 1) < 2 ^ p - dv then p - 1 else p)
    else presLoop dv fuel (p + 1)

/-- Frequency-selection slice of `hal_timer_init`: compute
`div = 16000000 / freq_hz`, reject an enabled device, a zero divider or a
divider above 512 with EINVAL, pick prescaler 0 for div = 1 and otherwise
run the search loop; on success return the achieved frequency
`16000000 / (1 << prescaler)` that the source stores in tmr_freq. -/
def hal_timer_init_freq (enabled : Bool) (freq_hz : Nat) : Except Nat Nat :=
  let dv := 16000000 / freq_hz
  if enabled || dv == 0 || 512 < dv then Except.error EINVAL
  else
    let prescaler := if dv == 1 then 0 else presLoop dv 9 1
    Except.ok (16000000 / 2 ^ prescaler)

/-- Model of `hal_timer_deinit`.  The Boolean `present` records whether the
device slot is configured (non-NULL in nrf51_hal_timers).  The parameter
`rc0` models the value of the uninitialized local variable `rc`, which the
source returns unchanged on the success path because no assignment to rc
exists between the resolve macro and the final `return rc`. -/
def hal_timer_deinit (timer_num : Nat) (present : Bool) (rc0 : Nat)
    (b : nrf51_hal_timer) : Nat × nrf51_hal_timer :=
  if 3 ≤ timer_num then (EINVAL, b)
  else if !present then (EINVAL, b)
  else
    let b1 := { b with tmr_reg := { b.tmr_reg with
      inten_cmp := false, running := false } }
    (rc0, { b1 with tmr_enabled := false })

/-- Busy-wait loop of `hal_timer_delay` over a trace of successive values
returned by `hal_timer_read`: the loop continues while
`(int32_t)(read - until) <= 0` and the function returns at the first read
strictly past `until`.  None means the trace was exhausted while still
waiting. -/
def hal_timer_delay_loop (untl : Nat) : List Nat → Option Nat
  | [] => none
  | r :: rest =>
    if sdiff32 r untl ≤ 0 then hal_timer_delay_loop untl rest else some r

/-- Model of `hal_timer_delay`: the first trace element is the entry read
that fixes `until = read + ticks` (uint32_t addition), the remaining
elements are the reads performed by the busy-wait loop. -/
def hal_timer_delay_run (reads : List Nat) (ticks : Nat) : Option Nat :=
  match reads with
  | [] => none
  | r0 :: rest => hal_timer_delay_loop ((r0 + ticks) % W) rest

/-- Hardware advance between two calls into the driver, for a 16-bit
device: the free-running counter moves from tick told to tick tnew
(monotonic in real time), and the overflow compare event is raised when
the 16-bit counter wrapped, i.e. when the 65536-epoch increased. -/
def advanceHw (b : nrf51_hal_timer) (told tnew : Nat) : nrf51_hal_timer :=
  { b with tmr_reg := { b.tmr_reg with
      counter := tnew % 65536,
      ev_cmp_ovf := b.tmr_reg.ev_cmp_ovf || decide (told / 65536 < tnew / 65536) } }

/-- Run a sequence of `hal_timer_read_bsptimer` calls at the given true
tick times, advancing the hardware before each call; returns the list of
values the driver hands back to its callers. -/
def runReads (b : nrf51_hal_timer) (tprev : Nat) : List Nat → List Nat
  | [] => []
  | tk :: rest =>
    let b1 := advanceHw b tprev tk
    let pr := hal_timer_read_bsptimer b1
    pr.1 :: runReads pr.2 tk rest

/-- Coherence of the 16-bit extension state with the true wide tick tw:
the hardware counter holds the low 16 bits of tw, and either no overflow
event is pending and the tally equals the epoch base of tw, or one
overflow event is pending and the tally is one epoch behind. -/
def coher (b : nrf51_hal_timer) (tw : Nat) : Prop :=
  b.tmr_16bit = true ∧ b.tmr_reg.counter % 65536 = tw % 65536 ∧
  ((b.tmr_reg.ev_cmp_ovf = false ∧ b.tmr_cntr = 65536 * (tw / 65536)) ∨
   (b.tmr_reg.ev_cmp_ovf = true ∧ b.tmr_cntr + 65536 = 65536 * (tw / 65536)))

/-- Queue sortedness invariant: adjacent entries are in non-decreasing
signed 32-bit wraparound order. -/
def qSorted (q : List hal_timer) : Prop :=
  List.Chain' (fun a b => sdiff32 a.expiry b.expiry ≤ 0) q

/-- Offset of a tick inside a wraparound window anchored at base. -/
def woff (x base : Nat) : Nat :=
  (x % W + (W - base % W)) % W

/-- Compare-arming invariant for a 32-bit device: the compare interrupt is
disabled when the queue is empty, and otherwise it is enabled with the
compare register holding the expiry of the queue head. -/
def armedInv (b : nrf51_hal_timer) : Prop :=
  (b.hal_timer_q = [] → b.tmr_reg.inten_cmp = false) ∧
  (∀ h t, b.hal_timer_q = h :: t →
    b.tmr_reg.inten_cmp = true ∧ b.tmr_reg.cc_int = h.expiry % W)

/-- Arithmetic characterization of a non-negative signed difference. -/
theorem sdiff32_nonneg_iff (a b : Nat) :
    0 ≤ sdiff32 a b ↔ (a % W + (W - b % W)) % W < HALF := by
  have hd : (a % W + (W - b % W)) % W < W := Nat.mod_lt _ (by norm_num [W])
  unfold sdiff32 W HALF at *
  split <;> omega

/-- Arithmetic characterization of a negative signed difference. -/
theorem sdiff32_neg_iff (a b : Nat) :
    sdiff32 a b < 0 ↔ HALF ≤ (a % W + (W - b % W)) % W := by
  have hd : (a % W + (W - b % W)) % W < W := Nat.mod_lt _ (by norm_num [W])
  unfold sdiff32 W HALF at *
  split <;> omega

/-- The signed difference vanishes exactly on equal uint32_t values. -/
theorem sdiff32_eq_zero_iff (a b : Nat) :
    sdiff32 a b = 0 ↔ a % W = b % W := by
  have hd : (a % W + (W - b % W)) % W < W := Nat.mod_lt _ (by norm_num [W])
  have hb : b % W < W := Nat.mod_lt _ (by norm_num [W])
  have ha : a % W < W := Nat.mod_lt _ (by norm_num [W])
  unfold sdiff32 W HALF at *
  split <;> omega

/-- A non-negative signed difference flips sign when the operands swap. -/
theorem sdiff32_flip (a b : Nat) (h : 0 ≤ sdiff32 a b) : sdiff32 b a ≤ 0 := by
  have hb : b % W < W := Nat.mod_lt _ (by norm_num [W])
  have ha : a % W < W := Nat.mod_lt _ (by norm_num [W])
  unfold sdiff32 W HALF at *
  split at h <;> split <;> omega

/-- Inside a half-range window the signed comparison agrees with the order
of the window offsets. -/
theorem sdiff32_woff_lt (x y base : Nat) (hx : woff x base < HALF)
    (hy : woff y base < HALF) :
    (sdiff32 x y < 0 ↔ woff x base < woff y base) := by
  have hbx : x % W < W := Nat.mod_lt _ (by norm_num [W])
  have hby : y % W < W := Nat.mod_lt _ (by norm_num [W])
  have hbb : base % W < W := Nat.mod_lt _ (by norm_num [W])
  unfold sdiff32 woff W HALF at *
  split <;> omega

/-- Inside a half-range window the non-strict signed comparison agrees with
the non-strict order of the window offsets. -/
theorem sdiff32_woff_le (x y base : Nat) (hx : woff x base < HALF)
    (hy : woff y base < HALF) :
    (sdiff32 x y ≤ 0 ↔ woff x base ≤ woff y base) := by
  have hbx : x % W < W := Nat.mod_lt _ (by norm_num [W])
  have hby : y % W < W := Nat.mod_lt _ (by norm_num [W])
  have hbb : base % W < W := Nat.mod_lt _ (by norm_num [W])
  unfold sdiff32 woff W HALF at *
  split <;> omega

/-- Window offsets are equal exactly on equal uint32_t values. -/
theorem woff_inj (x y base : Nat) :
    woff x base = woff y base ↔ x % W = y % W := by
  have hbx : x % W < W := Nat.mod_lt _ (by norm_num [W])
  have hby : y % W < W := Nat.mod_lt _ (by norm_num [W])
  have hbb : base % W < W := Nat.mod_lt _ (by norm_num [W])
  unfold woff W at *
  omega

/-- A value ORed onto a multiple of 65536 below 65536 simply adds. -/
theorem lor_hi_lo (k r : Nat) (h : r < 65536) :
    (65536 * k) ||| r = 65536 * k + r := by
  have h16 : (65536 : Nat) = 2 ^ 16 := by norm_num
  rw [h16] at h ⊢
  exact (Nat.mul_add_lt_is_or h k).symm

/-- Sample register block of a running 32-bit timer at counter value 50,
compare armed at tick 20. -/
def regA : NRF_TIMER_Type := ⟨50, 20, false, false, true, true⟩

/-- Sample enabled 32-bit device with three pending timers at ticks 20, 40
and 60, compare armed for the head. -/
def devA : nrf51_hal_timer := ⟨true, false, 0, 1000000, regA, false,
  [⟨1, true, 20, true⟩, ⟨2, true, 40, true⟩, ⟨3, true, 60, true⟩]⟩

/-- Re-arming the compare never touches the software timer queue. -/
theorem set_ocmp_queue (b : nrf51_hal_timer) (e : Nat) :
    (nrf_timer_set_ocmp b e).hal_timer_q = b.hal_timer_q := by
  simp only [nrf_timer_set_ocmp]
  repeat' split
  all_goals rfl

/-- Re-arming the compare never changes the counter-width mode. -/
theorem set_ocmp_16bit (b : nrf51_hal_timer) (e : Nat) :
    (nrf_timer_set_ocmp b e).tmr_16bit = b.tmr_16bit := by
  simp only [nrf_timer_set_ocmp]
  repeat' split
  all_goals rfl

/-- On a 32-bit device, re-arming always programs the full compare register
to the target expiry and enables the compare interrupt, whatever the race
outcome. -/
theorem set_ocmp_wide (b : nrf51_hal_timer) (e : Nat) (h : b.tmr_16bit = false) :
    (nrf_timer_set_ocmp b e).tmr_reg.inten_cmp = true ∧
    (nrf_timer_set_ocmp b e).tmr_reg.cc_int = e % W := by
  unfold nrf_timer_set_ocmp
  simp only [h, Bool.false_eq_true, if_false]
  split
  · exact ⟨rfl, rfl⟩
  · exact ⟨rfl, rfl⟩

/-- Reading the wide tick value never changes the queue or the width mode. -/
theorem read_bsptimer_frame (b : nrf51_hal_timer) :
    (hal_timer_read_bsptimer b).2.hal_timer_q = b.hal_timer_q ∧
    (hal_timer_read_bsptimer b).2.tmr_16bit = b.tmr_16bit := by
  simp only [hal_timer_read_bsptimer]
  repeat' split
  all_goals exact ⟨rfl, rfl⟩

/-- Every timer dispatched by the drain loop was expired at the tick value
read just before its dispatch. -/
theorem chkLoopAux_fired_expired (q : List hal_timer) :
    ∀ (b : nrf51_hal_timer), ∀ p ∈ (chkLoopAux q b).2.2,
      0 ≤ sdiff32 p.2 p.1.expiry := by
  induction q with
  | nil => intro b p hp; simp [chkLoopAux] at hp
  | cons t rest ih =>
    intro b p hp
    rw [chkLoopAux] at hp
    by_cases hc : 0 ≤ sdiff32 (hal_timer_read_bsptimer b).1 t.expiry
    · rw [if_pos hc] at hp
      rcases (List.mem_cons).1 hp with h1 | h2
      · subst h1; exact hc
      · exact ih _ p h2
    · rw [if_neg hc] at hp
      simp at hp

/-- The drain loop splits the queue: the identities of the fired timers
followed by the identities of the survivors are exactly the original
queue identities in order. -/
theorem chkLoopAux_ids (q : List hal_timer) :
    ∀ (b : nrf51_hal_timer),
      (chkLoopAux q b).2.2.map (fun p => p.1.id)
          ++ (chkLoopAux q b).1.map hal_timer.id
        = q.map hal_timer.id := by
  induction q with
  | nil => intro b; simp [chkLoopAux]
  | cons t rest ih =>
    intro b
    rw [chkLoopAux]
    by_cases hc : 0 ≤ sdiff32 (hal_timer_read_bsptimer b).1 t.expiry
    · rw [if_pos hc]
      simpa using ih (hal_timer_read_bsptimer b).2
    · rw [if_neg hc]
      simp

/-- The drain loop splits the queue expiries likewise. -/
theorem chkLoopAux_expiry (q : List hal_timer) :
    ∀ (b : nrf51_hal_timer),
      (chkLoopAux q b).2.2.map (fun p => p.1.expiry)
          ++ (chkLoopAux q b).1.map hal_timer.expiry
        = q.map hal_timer.expiry := by
  induction q with
  | nil => intro b; simp [chkLoopAux]
  | cons t rest ih =>
    intro b
    rw [chkLoopAux]
    by_cases hc : 0 ≤ sdiff32 (hal_timer_read_bsptimer b).1 t.expiry
    · rw [if_pos hc]
      simpa using ih (hal_timer_read_bsptimer b).2
    · rw [if_neg hc]
      simp

/-- Each timer handed to a callback is an original queue entry with its
membership link cleared. -/
theorem chkLoopAux_fired_src (q : List hal_timer) :
    ∀ (b : nrf51_hal_timer), ∀ p ∈ (chkLoopAux q b).2.2,
      ∃ t ∈ q, p.1 = { t with linked := false } := by
  induction q with
  | nil => intro b p hp; simp [chkLoopAux] at hp
  | cons t rest ih =>
    intro b p hp
    rw [chkLoopAux] at hp
    by_cases hc : 0 ≤ sdiff32 (hal_timer_read_bsptimer b).1 t.expiry
    · rw [if_pos hc] at hp
      rcases (List.mem_cons).1 hp with h1 | h2
      · exact ⟨t, List.mem_cons_self t rest, by rw [h1]⟩
      · rcases ih _ p h2 with ⟨u, hu, he⟩
        exact ⟨u, List.mem_cons_of_mem _ hu, he⟩
    · rw [if_neg hc] at hp
      simp at hp

/-- The queue left by hal_timer_chk_queue is the remainder computed by the
drain loop. -/
theorem chk_queue_queue (b : nrf51_hal_timer) :
    (hal_timer_chk_queue b).1.hal_timer_q = (chkLoopAux b.hal_timer_q b).1 := by
  unfold hal_timer_chk_queue
  cases hq : (chkLoopAux b.hal_timer_q b).1 with
  | nil => simp [hq, nrf_timer_disable_ocmp]
  | cons tm tl => simp [hq, set_ocmp_queue]

/-- C2.  Whenever hal_timer_chk_queue dispatches a callback, the tick value
read for the dispatch satisfies the signed 32-bit condition
now - expiry >= 0, so no callback runs while its expiry is still strictly
in the future; and the dispatched identities followed by the surviving
identities are exactly the original queue, hence under distinct node
identities each enqueued timer is dispatched at most once and is no longer
linked in the remaining queue. -/
theorem C2_chk_queue_single_fire (b : nrf51_hal_timer) :
    (∀ p ∈ (hal_timer_chk_queue b).2, 0 ≤ sdiff32 p.2 p.1.expiry) ∧
    ((hal_timer_chk_queue b).2.map (fun p => p.1.id)
        ++ (hal_timer_chk_queue b).1.hal_timer_q.map hal_timer.id
      = b.hal_timer_q.map hal_timer.id) ∧
    ((b.hal_timer_q.map hal_timer.id).Nodup →
      ((hal_timer_chk_queue b).2.map (fun p => p.1.id)).Nodup ∧
      ∀ i ∈ (hal_timer_chk_queue b).2.map (fun p => p.1.id),
        i ∉ (hal_timer_chk_queue b).1.hal_timer_q.map hal_timer.id) := by
  have hfired : (hal_timer_chk_queue b).2 = (chkLoopAux b.hal_timer_q b).2.2 := by
    unfold hal_timer_chk_queue
    cases hq : (chkLoopAux b.hal_timer_q b).1 with
    | nil => simp [hq]
    | cons tm tl => simp [hq]
  have hids := chkLoopAux_ids b.hal_timer_q b
  refine ⟨?_, ?_, ?_⟩
  · intro p hp
    rw [hfired] at hp
    exact chkLoopAux_fired_expired b.hal_timer_q b p hp
  · rw [hfired, chk_queue_queue]
    exact hids
  · intro hnd
    rw [hfired, chk_queue_queue]
    have hnd2 : ((chkLoopAux b.hal_timer_q b).2.2.map (fun p => p.1.id)
        ++ (chkLoopAux b.hal_timer_q b).1.map hal_timer.id).Nodup := by
      rw [hids]; exact hnd
    exact ⟨hnd2.of_append_left, fun i hi =>
      (List.disjoint_of_nodup_append hnd2) hi⟩

/-- Witness for C2 at a concrete device: the head timers at ticks 20 and 40
fire at counter 50, the timer at tick 60 survives, and no identity is
dispatched twice. -/
theorem C2_chk_queue_single_fire_witness :
    ((hal_timer_chk_queue devA).2.map (fun p => p.1.id)).Nodup ∧
    ∀ i ∈ (hal_timer_chk_queue devA).2.map (fun p => p.1.id),
      i ∉ (hal_timer_chk_queue devA).1.hal_timer_q.map hal_timer.id :=
  (C2_chk_queue_single_fire devA).2.2 (by decide)

/-- The dispatched-timer list of hal_timer_chk_queue is the one computed by
the drain loop, whichever way the final re-arm goes. -/
theorem chk_queue_fired (b : nrf51_hal_timer) :
    (hal_timer_chk_queue b).2 = (chkLoopAux b.hal_timer_q b).2.2 := by
  unfold hal_timer_chk_queue
  cases hq : (chkLoopAux b.hal_timer_q b).1 with
  | nil => simp [hq]
  | cons tm tl => simp [hq]

/-- Calling hal_timer_start_at on an unlinked timer with a callback never
fails. -/
theorem start_at_unlinked_ok (t : hal_timer) (tick : Nat) (b : nrf51_hal_timer)
    (hl : t.linked = false) (hc : t.cb_func = true) :
    (hal_timer_start_at (some t) tick b).1 = 0 := by
  simp [hal_timer_start_at, hl, hc]

/-- C10.  Every timer that hal_timer_chk_queue dispatches is handed to its
callback with the membership link already cleared (link.tqe_prev = NULL is
set strictly before the callback is invoked), so re-starting the same timer
from inside its own callback passes the already-enqueued precondition and
succeeds. -/
theorem C10_unlink_before_dispatch (b : nrf51_hal_timer) (tick : Nat)
    (b2 : nrf51_hal_timer) (hcb : ∀ t ∈ b.hal_timer_q, t.cb_func = true) :
    ∀ p ∈ (hal_timer_chk_queue b).2, p.1.linked = false ∧
      (hal_timer_start_at (some p.1) tick b2).1 = 0 := by
  intro p hp
  rw [chk_queue_fired] at hp
  obtain ⟨t, htq, hpt⟩ := chkLoopAux_fired_src b.hal_timer_q b p hp
  have hcbt := hcb t htq
  refine ⟨by rw [hpt], ?_⟩
  apply start_at_unlinked_ok
  · rw [hpt]
  · rw [hpt]; exact hcbt

/-- Witness for C10: the timer of identity 1 fired by the sample device is
unlinked, and re-starting it succeeds. -/
theorem C10_unlink_before_dispatch_witness :
    ((⟨1, true, 20, false⟩ : hal_timer), (50 : Nat)).1.linked = false ∧
      (hal_timer_start_at (some (⟨1, true, 20, false⟩ : hal_timer)) 999 devA).1 = 0 :=
  C10_unlink_before_dispatch devA 999 devA (by decide) _ (by decide)

/-- C8.  hal_timer_start_at fails with EINVAL exactly when the timer
pointer is NULL, the timer is already linked into a queue, or it has no
callback, and in every such error case it returns with the timer node and
the whole device state (queue, compare registers) unmodified. -/
theorem C8_start_at_errors (timer : Option hal_timer) (tick : Nat)
    (b : nrf51_hal_timer) :
    ((hal_timer_start_at timer tick b).1 = EINVAL ↔
      timer = none ∨ ∃ t, timer = some t ∧ (t.linked = true ∨ t.cb_func = false)) ∧
    ((hal_timer_start_at timer tick b).1 = EINVAL →
      (hal_timer_start_at timer tick b).2.1 = timer ∧
      (hal_timer_start_at timer tick b).2.2 = b) := by
  match timer with
  | none => simp [hal_timer_start_at, EINVAL]
  | some t =>
    cases hl : t.linked <;> cases hc : t.cb_func <;>
      simp [hal_timer_start_at, hl, hc, EINVAL]

/-- Witness for C8: a timer without callback is rejected and the device is
returned untouched. -/
theorem C8_start_at_errors_witness :
    (hal_timer_start_at (some ⟨9, false, 0, false⟩) 5 devA).2.2 = devA :=
  ((C8_start_at_errors (some ⟨9, false, 0, false⟩) 5 devA).2 (by decide)).2

/-- C9.  The source of hal_timer_deinit performs the documented side
effects (compare interrupt disabled, counter stopped, enabled flag
cleared) and returns EINVAL for an out-of-range or unconfigured device,
but on the success path it returns the local variable rc without ever
assigning it: the returned value is whatever the uninitialized local
held (modelled by rc0), not the deterministic 0 the specification
promises.  Instantiating the indeterminate value with 7 exhibits a
non-zero success return. -/
theorem C9_deinit_uninitialized_rc :
    (∀ rc0 : Nat, ∀ b : nrf51_hal_timer, (hal_timer_deinit 0 true rc0 b).1 = rc0) ∧
    (hal_timer_deinit 0 true 7 devA).1 = 7 ∧ (7 : Nat) ≠ 0 ∧
    (hal_timer_deinit 0 true 7 devA).2.tmr_reg.inten_cmp = false ∧
    (hal_timer_deinit 0 true 7 devA).2.tmr_reg.running = false ∧
    (hal_timer_deinit 0 true 7 devA).2.tmr_enabled = false ∧
    (hal_timer_deinit 3 true 7 devA).1 = EINVAL ∧
    (hal_timer_deinit 0 false 7 devA).1 = EINVAL := by
  refine ⟨fun rc0 b => rfl, ?_⟩
  decide

/-- C5 counterexample: freq_hz = 83333 gives divider 192, exactly halfway
between 2^7 = 128 and 2^8 = 256; the loop keeps the larger exponent 8 and
stores 62500 Hz, not the 125000 Hz the smaller exponent would give, so
ties do not favor the smaller exponent. -/
theorem C5_tie_counterexample :
    16000000 / 83333 = 192 ∧ (192 : Nat) - 2 ^ 7 = 2 ^ 8 - 192 ∧
    hal_timer_init_freq false 83333 = Except.ok 62500 ∧ (62500 : Nat) ≠ 125000 :=
  ⟨by decide, by decide, by rfl, by decide⟩

set_option maxRecDepth 8000 in
/-- C5 amended: for every achievable divider the loop picks the exponent
with the divider nearest div, but an exact halfway tie keeps the larger
exponent (lower frequency); for freq_hz = 100000 (div = 160, not a tie)
it picks exponent 7 and stores 125000 Hz. -/
theorem C5_prescaler_nearest :
    (∀ dv, dv < 513 → ∀ e, e < 10 → 1 ≤ e → 2 ^ (e - 1) < dv → dv ≤ 2 ^ e →
      presLoop dv 9 1 = if dv - 2 ^ (e - 1) < 2 ^ e - dv then e - 1 else e) ∧
    hal_timer_init_freq false 100000 = Except.ok 125000 := by
  constructor
  · decide
  · rfl

/-- Witness for C5 amended at the spec example: divider 160 selects
prescaler exponent 7. -/
theorem C5_prescaler_nearest_witness : presLoop 160 9 1 = 7 := by
  have h := (C5_prescaler_nearest).1 160 (by norm_num) 8 (by norm_num) (by norm_num)
    (by norm_num) (by norm_num)
  rw [h]
  norm_num

/-- Characterization of the busy-wait loop of hal_timer_delay: it returns
some v exactly when the read trace splits into earlier reads that all keep
waiting (signed difference at most 0) followed by v, the first read
strictly past the deadline. -/
theorem delay_loop_spec (untl : Nat) (l : List Nat) (v : Nat) :
    hal_timer_delay_loop untl l = some v ↔
      ∃ l1 l2, l = l1 ++ v :: l2 ∧ 0 < sdiff32 v untl ∧
        ∀ r ∈ l1, sdiff32 r untl ≤ 0 := by
  induction l with
  | nil => simp [hal_timer_delay_loop]
  | cons r rest ih =>
    rw [hal_timer_delay_loop]
    by_cases hc : sdiff32 r untl ≤ 0
    · rw [if_pos hc, ih]
      constructor
      · rintro ⟨l1, l2, he, hv, hall⟩
        refine ⟨r :: l1, l2, by simp [he], hv, ?_⟩
        intro x hx
        rcases (List.mem_cons).1 hx with h1 | h2
        · rw [h1]; exact hc
        · exact hall x h2
      · rintro ⟨l1, l2, he, hv, hall⟩
        cases l1 with
        | nil =>
          simp only [List.nil_append, List.cons.injEq] at he
          rw [he.1] at hc
          omega
        | cons a l1t =>
          simp only [List.cons_append, List.cons.injEq] at he
          exact ⟨l1t, l2, he.2, hv, fun x hx => hall x (List.mem_cons_of_mem a hx)⟩
    · rw [if_neg hc]
      constructor
      · intro h
        have hrv : r = v := by injection h
        subst hrv
        exact ⟨[], rest, rfl, by omega, by intro x hx; simp at hx⟩
      · rintro ⟨l1, l2, he, hv, hall⟩
        cases l1 with
        | nil =>
          simp only [List.nil_append, List.cons.injEq] at he
          rw [he.1]
        | cons a l1t =>
          simp only [List.cons_append, List.cons.injEq] at he
          have := hall a (List.mem_cons_self a l1t)
          rw [he.1] at hc
          exact absurd this hc

/-- C6 counterexample: with entry read 0 and ticks 5 the deadline is 5; at
the loop read of 5 the signed difference read - until is 0, so it has
already become at least 0, yet the loop keeps waiting and only returns at
the later read 6. -/
theorem C6_delay_equality_counterexample :
    hal_timer_delay_run [0, 3, 5, 6] 5 = some 6 ∧
    0 ≤ sdiff32 5 ((0 + 5) % W) ∧ (6 : Nat) ≠ 5 := by
  decide

/-- C6 amended: hal_timer_delay returns exactly when the wraparound-aware
signed difference read() - until first becomes strictly positive, with
until equal to the entry read plus ticks (uint32_t addition). -/
theorem C6_delay_strict_exit (reads : List Nat) (ticks v : Nat) :
    hal_timer_delay_run reads ticks = some v ↔
      ∃ r0 rest l1 l2, reads = r0 :: rest ∧ rest = l1 ++ v :: l2 ∧
        0 < sdiff32 v ((r0 + ticks) % W) ∧
        ∀ r ∈ l1, sdiff32 r ((r0 + ticks) % W) ≤ 0 := by
  cases reads with
  | nil => simp [hal_timer_delay_run]
  | cons r0 rest =>
    rw [hal_timer_delay_run, delay_loop_spec]
    constructor
    · rintro ⟨l1, l2, he, hv, hall⟩
      exact ⟨r0, rest, l1, l2, rfl, he, hv, hall⟩
    · rintro ⟨r0x, restx, l1, l2, heq, he, hv, hall⟩
      injection heq with h0 h1
      subst h0; subst h1
      exact ⟨l1, l2, he, hv, hall⟩

/-- Witness for C6 amended: the concrete trace exits at read 6, the first
read strictly past the deadline 5. -/
theorem C6_delay_strict_exit_witness :
    hal_timer_delay_run [0, 3, 5, 6] 5 = some 6 :=
  (C6_delay_strict_exit [0, 3, 5, 6] 5 6).2
    ⟨0, [3, 5, 6], [3, 5], [], by decide, by decide, by decide, by decide⟩

set_option maxRecDepth 4096 in
/-- Reading on a coherent 16-bit device returns exactly the true wide tick
tw and leaves a coherent state with the overflow event consumed.  The
boundedness hypothesis keeps the uint32_t tally increment below its wrap. -/
theorem read_bsptimer_coher (b : nrf51_hal_timer) (tw : Nat) (h : coher b tw)
    (htw : tw < W) :
    (hal_timer_read_bsptimer b).1 = tw ∧
    coher (hal_timer_read_bsptimer b).2 tw ∧
    (hal_timer_read_bsptimer b).2.tmr_reg.ev_cmp_ovf = false := by
  obtain ⟨h16, hcnt, htal⟩ := h
  have hlt : tw % 65536 < 65536 := Nat.mod_lt _ (by norm_num)
  rcases htal with ⟨hovf, htv⟩ | ⟨hovf, htv⟩
  · simp only [hal_timer_read_bsptimer, nrf_read_timer_cntr, h16, hovf, if_true,
      Bool.false_eq_true, if_false]
    refine ⟨?_, ⟨?_, ?_, Or.inl ⟨?_, ?_⟩⟩, ?_⟩
    · rw [hcnt, htv, lor_hi_lo _ _ hlt]
      omega
    all_goals trivial
  · simp only [hal_timer_read_bsptimer, nrf_read_timer_cntr, h16, hovf, if_true]
    have hW2 : tw < 4294967296 := htw
    have hmod : (b.tmr_cntr + 65536) % W = b.tmr_cntr + 65536 := by
      apply Nat.mod_eq_of_lt
      show b.tmr_cntr + 65536 < 4294967296
      omega
    rw [hmod]
    refine ⟨?_, ⟨?_, ?_, Or.inl ⟨?_, ?_⟩⟩, ?_⟩
    · rw [hcnt, htv, lor_hi_lo _ _ hlt]
      omega
    · rfl
    · exact hcnt
    · rfl
    · exact htv
    · trivial

/-- Advancing the hardware between calls preserves coherence provided the
counter does not move backwards and at most one 16-bit wrap happens before
the pending overflow event is consumed. -/
theorem advanceHw_coher (b : nrf51_hal_timer) (told tnew : Nat) (h : coher b told)
    (hovf : b.tmr_reg.ev_cmp_ovf = false) (hle : told ≤ tnew)
    (hep : tnew / 65536 ≤ told / 65536 + 1) :
    coher (advanceHw b told tnew) tnew := by
  obtain ⟨h16, hcnt, htal⟩ := h
  rcases htal with ⟨_, htv⟩ | ⟨hbad, _⟩
  swap
  · rw [hovf] at hbad
    exact absurd hbad (by simp)
  refine ⟨?_, ?_, ?_⟩
  · simp only [advanceHw]
    exact h16
  · simp only [advanceHw]
    omega
  · by_cases hw2 : told / 65536 < tnew / 65536
    · refine Or.inr ⟨?_, ?_⟩
      · simp [advanceHw, hovf, hw2]
      · simp only [advanceHw]
        have hnewep : tnew / 65536 = told / 65536 + 1 := by omega
        omega
    · refine Or.inl ⟨?_, ?_⟩
      · simp [advanceHw, hovf, hw2]
      · simp only [advanceHw]
        have hnewep : tnew / 65536 = told / 65536 := by omega
        omega

/-- Running a monotone trace of reads on a coherent device returns exactly
the true wide tick values, as long as those ticks stay below 2^32 (so the
uint32_t extension never wraps). -/
theorem runReads_coher (ts : List Nat) :
    ∀ (b : nrf51_hal_timer) (t0 : Nat), coher b t0 →
      b.tmr_reg.ev_cmp_ovf = false →
      List.Chain (fun x y => x ≤ y ∧ y / 65536 ≤ x / 65536 + 1 ∧ y < W) t0 ts →
      runReads b t0 ts = ts := by
  induction ts with
  | nil => intro b t0 _ _ _; rfl
  | cons tk rest ih =>
    intro b t0 h hovf hchain
    rcases List.chain_cons.1 hchain with ⟨⟨hle, hep, hwb⟩, hch2⟩
    have hadv := advanceHw_coher b t0 tk h hovf hle hep
    have hrd := read_bsptimer_coher (advanceHw b t0 tk) tk hadv hwb
    simp only [runReads]
    rw [hrd.1, ih _ _ hrd.2.1 hrd.2.2 hch2]

/-- C7 amended.  On a 16-bit device whose hardware counter advances
monotonically mod 2^16 with the overflow event raised at each wrap (at
most one wrap per interval, as a single event flag can record), and as
long as the true wide tick stays below 2^32 — i.e. the uint32_t extended
counter has not itself wrapped — every call of hal_timer_read_bsptimer
returns exactly the true wide tick, so the returned 32-bit extended
values are monotonic non-decreasing, including across every 16-bit
overflow boundary.  When the uint32_t overflow tally wraps past 2^32 the
returned value wraps with it and decreases, as the counterexample shows. -/
theorem C7_read_monotonic (b : nrf51_hal_timer) (t0 : Nat) (ts : List Nat)
    (h : coher b t0) (hovf : b.tmr_reg.ev_cmp_ovf = false)
    (hchain : List.Chain (fun x y => x ≤ y ∧ y / 65536 ≤ x / 65536 + 1 ∧ y < W)
      t0 ts) :
    runReads b t0 ts = ts ∧
    List.Chain' (fun x y => x ≤ y) (runReads b t0 ts) := by
  have main := runReads_coher ts b t0 h hovf hchain
  refine ⟨main, ?_⟩
  rw [main]
  have hch : List.Chain (fun x y => x ≤ y) t0 ts :=
    List.Chain.imp (fun a c hac => hac.1) hchain
  have hch2 : List.Chain' (fun x y => x ≤ y) (t0 :: ts) := hch
  exact hch2.tail

/-- Sample freshly initialized 16-bit device at tick 0. -/
def dev16 : nrf51_hal_timer := ⟨true, true, 0, 125000, ⟨0, 0, false, false, false, true⟩,
  false, []⟩

/-- Sample 16-bit device whose uint32_t overflow tally is one 16-bit
overflow away from wrapping: tmr_cntr holds 0xFFFF0000 (reachable after
65535 overflow events) and the hardware counter sits at 65534, a coherent
image of true wide tick 4294967294. -/
def dev16wrap : nrf51_hal_timer := ⟨true, true, 4294901760, 125000,
  ⟨65534, 0, false, false, false, true⟩, false, []⟩

/-- C7 counterexample: the read at true tick 4294967295 returns 4294967295,
and after the next 16-bit overflow the uint32_t tally wraps
((0xFFFF0000 + 65536) mod 2^32 = 0), so the following read returns 1: the
returned extended tick values decrease although the hardware counter
advanced monotonically mod 2^16 with the overflow event raised at the
wrap, refuting monotonicity over arbitrary call sequences. -/
theorem C7_wrap_counterexample :
    runReads dev16wrap 4294967294 [4294967295, 4294967297] = [4294967295, 1] ∧
    ¬ (4294967295 : Nat) ≤ 1 := by
  decide

/-- Witness for C7 amended: a 16-bit device read at true ticks 10, 70000
and 131073 (crossing two overflow boundaries, extension unwrapped) returns
exactly those values, in monotone order. -/
theorem C7_read_monotonic_witness :
    runReads dev16 0 [10, 70000, 131073] = [10, 70000, 131073] :=
  (C7_read_monotonic dev16 0 [10, 70000, 131073] ⟨rfl, rfl, Or.inl ⟨rfl, rfl⟩⟩
    rfl
    (List.Chain.cons ⟨by decide, by decide, by decide⟩
      (List.Chain.cons ⟨by decide, by decide, by decide⟩
        (List.Chain.cons ⟨by decide, by decide, by decide⟩ List.Chain.nil)))).1

/-- Sorted insertion preserves the queue sortedness invariant. -/
theorem q_insert_sorted (t : hal_timer) (q : List hal_timer) (h : qSorted q) :
    qSorted (hal_timer_q_insert t q) := by
  induction q with
  | nil => simp [hal_timer_q_insert, qSorted]
  | cons e rest ih =>
    rw [hal_timer_q_insert]
    by_cases hc : sdiff32 t.expiry e.expiry < 0
    · rw [if_pos hc]
      exact List.Chain'.cons (le_of_lt hc) h
    · rw [if_neg hc]
      have hfe : sdiff32 e.expiry t.expiry ≤ 0 :=
        sdiff32_flip _ _ (not_lt.1 hc)
      have hih := ih (List.Chain'.tail h)
      apply List.chain'_cons'.2
      refine ⟨?_, hih⟩
      intro y hy
      cases rest with
      | nil =>
        simp [hal_timer_q_insert] at hy
        rw [← hy]
        exact hfe
      | cons f rest2 =>
        rw [hal_timer_q_insert] at hy
        by_cases hc2 : sdiff32 t.expiry f.expiry < 0
        · rw [if_pos hc2] at hy
          simp at hy
          rw [← hy]
          exact hfe
        · rw [if_neg hc2] at hy
          simp at hy
          rw [← hy]
          exact (List.chain'_cons.1 h).1

/-- In a sorted queue lying inside a half-range window, every later entry
has a window offset at least that of the head. -/
theorem sorted_window_rest (base : Nat) :
    ∀ (rest : List hal_timer) (e : hal_timer), qSorted (e :: rest) →
      (∀ x ∈ e :: rest, woff x.expiry base < HALF) →
      ∀ x ∈ rest, woff e.expiry base ≤ woff x.expiry base := by
  intro rest
  induction rest with
  | nil => intro e _ _ x hx; simp at hx
  | cons f rest2 ih =>
    intro e hs hw x hx
    have hef : sdiff32 e.expiry f.expiry ≤ 0 := (List.chain'_cons.1 hs).1
    have hwe : woff e.expiry base < HALF := hw e (by simp)
    have hwf : woff f.expiry base < HALF := hw f (by simp)
    have hof : woff e.expiry base ≤ woff f.expiry base :=
      (sdiff32_woff_le _ _ _ hwe hwf).1 hef
    rcases (List.mem_cons).1 hx with h1 | h2
    · rw [h1]; exact hof
    · have hre := ih f (List.chain'_cons.1 hs).2
        (fun y hy => hw y (List.mem_cons_of_mem e hy)) x h2
      omega

/-- Inserting inside a half-range window places the new timer after every
already-enqueued timer, and in particular after every one of equal expiry:
everything at or past the insertion point has a different expiry. -/
theorem q_insert_fifo (base : Nat) (t : hal_timer) :
    ∀ q : List hal_timer, qSorted q →
      (∀ x ∈ q, woff x.expiry base < HALF) → woff t.expiry base < HALF →
      ∃ l1 l2, hal_timer_q_insert t q = l1 ++ t :: l2 ∧ l1 ++ l2 = q ∧
        ∀ x ∈ l2, x.expiry % W ≠ t.expiry % W := by
  intro q
  induction q with
  | nil =>
    intro _ _ _
    exact ⟨[], [], rfl, rfl, by intro x hx; simp at hx⟩
  | cons e rest ih =>
    intro hs hw ht
    rw [hal_timer_q_insert]
    by_cases hc : sdiff32 t.expiry e.expiry < 0
    · rw [if_pos hc]
      refine ⟨[], e :: rest, rfl, rfl, ?_⟩
      intro x hx heq
      have hwe : woff e.expiry base < HALF := hw e (by simp)
      have hlt : woff t.expiry base < woff e.expiry base :=
        (sdiff32_woff_lt _ _ _ ht hwe).1 hc
      have hxe : woff t.expiry base < woff x.expiry base := by
        rcases (List.mem_cons).1 hx with h1 | h2
        · rw [h1]; exact hlt
        · have := sorted_window_rest base rest e hs hw x h2
          omega
      have := (woff_inj x.expiry t.expiry base).2 heq
      omega
    · rw [if_neg hc]
      obtain ⟨l1, l2, he1, he2, hne⟩ := ih (List.Chain'.tail hs)
        (fun y hy => hw y (List.mem_cons_of_mem e hy)) ht
      exact ⟨e :: l1, l2, by simp [he1], by simp [he2], hne⟩

/-- The expiries dispatched by one drain pass form a sorted prefix of the
queue expiries. -/
theorem chk_drain_sorted (b : nrf51_hal_timer) (hs : qSorted b.hal_timer_q) :
    List.Chain' (fun x y => sdiff32 x y ≤ 0)
      ((hal_timer_chk_queue b).2.map (fun p => p.1.expiry)) := by
  have heq := chkLoopAux_expiry b.hal_timer_q b
  rw [chk_queue_fired]
  have hsE : List.Chain' (fun x y => sdiff32 x y ≤ 0)
      (b.hal_timer_q.map hal_timer.expiry) := by
    rw [List.chain'_map]
    exact hs
  rw [← heq] at hsE
  exact (List.chain'_append.1 hsE).1

/-- C3 amended.  Insertion always keeps the queue sorted in adjacent
wraparound order; when all pending expiries and the new expiry lie inside
one half-range (less than 2^31 ticks) window, the new timer is placed after
every already-enqueued timer of equal expiry, so equal deadlines drain in
insertion (FIFO) order; and the drain loop always returns timers in
non-decreasing wraparound expiry order.  Outside such a window (a pending
expiry exactly 2^31 ticks away), the equal-expiry FIFO placement can fail,
as the counterexample shows. -/
theorem C3_insert_order (t : hal_timer) (q : List hal_timer) (base : Nat)
    (b : nrf51_hal_timer) :
    (qSorted q → qSorted (hal_timer_q_insert t q)) ∧
    (qSorted q → (∀ x ∈ q, woff x.expiry base < HALF) →
      woff t.expiry base < HALF →
      ∃ l1 l2, hal_timer_q_insert t q = l1 ++ t :: l2 ∧ l1 ++ l2 = q ∧
        ∀ x ∈ l2, x.expiry % W ≠ t.expiry % W) ∧
    (qSorted b.hal_timer_q →
      List.Chain' (fun x y => sdiff32 x y ≤ 0)
        ((hal_timer_chk_queue b).2.map (fun p => p.1.expiry))) :=
  ⟨q_insert_sorted t q,
   fun hs hw ht => q_insert_fifo base t q hs hw ht,
   chk_drain_sorted b⟩

/-- C3 counterexample: into the reachable queue built by inserting expiry 5
(identity 1) and then expiry 2^31 + 5 (identity 2), a third timer with the
same expiry 5 (identity 3) is inserted at the head, in front of the
equal-expiry timer of identity 1 that was enqueued first, so a timer whose
expiry equals that of an already-enqueued timer is not always placed after
it. -/
theorem C3_fifo_counterexample :
    hal_timer_q_insert ⟨3, true, 5, true⟩
        (hal_timer_q_insert ⟨2, true, 2147483653, true⟩
          (hal_timer_q_insert ⟨1, true, 5, true⟩ []))
      = [⟨3, true, 5, true⟩, ⟨2, true, 2147483653, true⟩, ⟨1, true, 5, true⟩] ∧
    (⟨3, true, 5, true⟩ : hal_timer).expiry = (⟨1, true, 5, true⟩ : hal_timer).expiry ∧
    (3 : Nat) ≠ 1 := by
  decide

/-- Witness for C3 amended: inserting expiry 30 into the sample sorted
queue keeps it sorted. -/
theorem C3_insert_order_witness :
    qSorted (hal_timer_q_insert ⟨4, true, 30, false⟩ devA.hal_timer_q) :=
  (C3_insert_order ⟨4, true, 30, false⟩ devA.hal_timer_q 0 devA).1
    (List.Chain.cons (by decide) (List.Chain.cons (by decide) List.Chain.nil))

/-- Sample 16-bit device with matching epoch whose counter has exactly
reached the tick 100. -/
def dev16cnt100 : nrf51_hal_timer := ⟨true, true, 0, 125000,
  ⟨100, 0, false, false, false, true⟩, false, []⟩

/-- C4 counterexample: on the 16-bit device with matching epoch whose
counter equals the target (counter = 100, target low bits = 100), the
compare is programmed and enabled but the interrupt is NOT forced pending,
because the source tests the strict inequality cntr > expiry16; the
counter having exactly reached the target does not pend. -/
theorem C4_equal_reach_counterexample :
    (nrf_timer_set_ocmp dev16cnt100 100).irq_pending = false ∧
    (nrf_timer_set_ocmp dev16cnt100 100).tmr_reg.inten_cmp = true ∧
    (nrf_timer_set_ocmp dev16cnt100 100).tmr_reg.cc_int = 100 ∧
    nrf_read_timer_cntr dev16cnt100 = 100 := by
  decide

/-- C4 amended.  After programming the compare and enabling the interrupt,
nrf_timer_set_ocmp force-pends the interrupt exactly when the re-read
counter has passed the target: in wide 32-bit mode this includes the case
of exact equality (signed difference cntr - expiry at least 0), but in
narrow 16-bit mode with matching epoch the test is strict (cntr greater
than the low 16 target bits), so exact equality does not pend there. -/
theorem C4_force_pend (b : nrf51_hal_timer) (e : Nat) :
    (b.tmr_16bit = false → b.irq_pending = false →
      (((nrf_timer_set_ocmp b e).irq_pending = true) ↔
        0 ≤ sdiff32 (b.tmr_reg.counter % W) e) ∧
      (nrf_timer_set_ocmp b e).tmr_reg.inten_cmp = true ∧
      (nrf_timer_set_ocmp b e).tmr_reg.cc_int = e % W) ∧
    (b.tmr_16bit = true → b.irq_pending = false →
      sdiff32 (e % W / 65536 * 65536) b.tmr_cntr = 0 →
      (((nrf_timer_set_ocmp b e).irq_pending = true) ↔
        e % 65536 < b.tmr_reg.counter % 65536) ∧
      (nrf_timer_set_ocmp b e).tmr_reg.inten_cmp = true ∧
      (nrf_timer_set_ocmp b e).tmr_reg.cc_int = e % 65536) := by
  constructor
  · intro h16 hp
    simp only [nrf_timer_set_ocmp, nrf_read_timer_cntr, h16, Bool.false_eq_true,
      if_false]
    split
    · simp_all
    · simp_all
  · intro h16 hp he
    simp only [nrf_timer_set_ocmp, nrf_read_timer_cntr, h16, if_true, he]
    norm_num
    split
    · simp_all
    · simp_all

/-- Witness for C4 amended: in wide mode with counter 50 and target 40 the
signed difference is 10, so the interrupt is force-pended; in 16-bit mode
with counter 100 and target 90 the strict comparison pends as well. -/
theorem C4_force_pend_witness :
    ((nrf_timer_set_ocmp devA 40).irq_pending = true ↔
      0 ≤ sdiff32 (devA.tmr_reg.counter % W) 40) ∧
    ((nrf_timer_set_ocmp dev16cnt100 90).irq_pending = true ↔
      90 % 65536 < dev16cnt100.tmr_reg.counter % 65536) :=
  ⟨((C4_force_pend devA 40).1 rfl rfl).1,
   ((C4_force_pend dev16cnt100 90).2 rfl rfl (by decide)).1⟩

/-- The drain loop never changes the counter-width mode of the device. -/
theorem chkLoopAux_16bit (q : List hal_timer) :
    ∀ b : nrf51_hal_timer, (chkLoopAux q b).2.1.tmr_16bit = b.tmr_16bit := by
  induction q with
  | nil => intro b; rfl
  | cons t rest ih =>
    intro b
    rw [chkLoopAux]
    by_cases hc : 0 ≤ sdiff32 (hal_timer_read_bsptimer b).1 t.expiry
    · rw [if_pos hc]
      exact (ih (hal_timer_read_bsptimer b).2).trans (read_bsptimer_frame b).2
    · rw [if_neg hc]
      exact (read_bsptimer_frame b).2

/-- After a drain pass on a 32-bit device the compare-arming invariant
holds unconditionally: armed to the head expiry when timers remain,
disabled when the queue emptied. -/
theorem chk_queue_armedInv (b : nrf51_hal_timer) (h16 : b.tmr_16bit = false) :
    armedInv (hal_timer_chk_queue b).1 := by
  unfold hal_timer_chk_queue
  cases hq : (chkLoopAux b.hal_timer_q b).1 with
  | nil =>
    simp only [hq]
    constructor
    · intro _
      rfl
    · intro h tl2 heq
      rw [show (nrf_timer_disable_ocmp { (chkLoopAux b.hal_timer_q b).2.1 with
        hal_timer_q := ([] : List hal_timer) }).hal_timer_q = [] from rfl] at heq
      exact absurd heq (by simp)
  | cons tm tl =>
    simp only [hq]
    have h16b : ({ (chkLoopAux b.hal_timer_q b).2.1 with
        hal_timer_q := tm :: tl } : nrf51_hal_timer).tmr_16bit = false :=
      (chkLoopAux_16bit b.hal_timer_q b).trans h16
    have hw := set_ocmp_wide { (chkLoopAux b.hal_timer_q b).2.1 with
      hal_timer_q := tm :: tl } tm.expiry h16b
    constructor
    · intro hemp
      rw [set_ocmp_queue] at hemp
      exact absurd hemp (by simp)
    · intro h tl2 heq
      rw [set_ocmp_queue] at heq
      have hh : tm = h := by injection heq
      refine ⟨hw.1, ?_⟩
      rw [hw.2, hh]

/-- Sorted insertion never yields an empty queue. -/
theorem q_insert_ne_nil (t : hal_timer) (q : List hal_timer) :
    hal_timer_q_insert t q ≠ [] := by
  cases q with
  | nil => simp [hal_timer_q_insert]
  | cons e rest =>
    rw [hal_timer_q_insert]
    split <;> simp

/-- Sorted insertion either places the new timer at the head or keeps the
old head and recurses into the tail. -/
theorem q_insert_head (t : hal_timer) (q : List hal_timer) :
    hal_timer_q_insert t q = t :: q ∨
    (∃ e rest, q = e :: rest ∧
      hal_timer_q_insert t q = e :: hal_timer_q_insert t rest) := by
  cases q with
  | nil => left; rfl
  | cons e rest =>
    rw [hal_timer_q_insert]
    by_cases hc : sdiff32 t.expiry e.expiry < 0
    · left; rw [if_pos hc]
    · right; exact ⟨e, rest, rfl, by rw [if_neg hc]⟩

/-- A successful hal_timer_start_at on a 32-bit device restores the
compare-arming invariant: re-armed for the new timer when it became the
head, untouched (and still matching the unchanged head) otherwise. -/
theorem start_at_armedInv (t : hal_timer) (tick : Nat) (b : nrf51_hal_timer)
    (h16 : b.tmr_16bit = false) (hinv : armedInv b)
    (hfresh : t.id ∉ b.hal_timer_q.map hal_timer.id) :
    armedInv (hal_timer_start_at (some t) tick b).2.2 := by
  by_cases hl : t.linked
  · simpa [hal_timer_start_at, hl] using hinv
  · by_cases hcb : t.cb_func
    · have hl2 : t.linked = false := by
        cases hlf : t.linked
        · rfl
        · exact absurd hlf hl
      have hcond : (t.linked || !t.cb_func) = false := by rw [hl2, hcb]; rfl
      simp only [hal_timer_start_at, hcond, Bool.false_eq_true, if_false]
      rcases q_insert_head { t with expiry := tick % W, linked := true }
          b.hal_timer_q with hh | ⟨e, rest, hbq, hh⟩
      · rw [hh, if_pos (by simp)]
        have hw := set_ocmp_wide { b with hal_timer_q :=
          { t with expiry := tick % W, linked := true } :: b.hal_timer_q }
          (tick % W) h16
        constructor
        · intro hemp
          rw [set_ocmp_queue] at hemp
          exact absurd hemp (by simp)
        · intro h tl2 heq
          rw [set_ocmp_queue] at heq
          have hht : ({ t with expiry := tick % W, linked := true } : hal_timer) = h := by
            injection heq
          refine ⟨hw.1, ?_⟩
          rw [hw.2, ← hht]
      · have hne : ¬ e.id = t.id := by
          intro hcontra
          apply hfresh
          rw [hbq]
          simp only [List.map_cons, List.mem_cons]
          left
          exact hcontra.symm
        rw [hh, if_neg (by simp [hne])]
        constructor
        · intro hemp
          exact absurd hemp (by simp)
        · intro h tl2 heq
          have hhe : e = h := by injection heq
          have hprev := hinv.2 e rest hbq
          refine ⟨hprev.1, ?_⟩
          rw [← hhe]
          exact hprev.2
    · have hcb2 : t.cb_func = false := by
        cases hcf : t.cb_func
        · rfl
        · exact absurd hcf hcb
      simpa [hal_timer_start_at, hl, hcb2] using hinv

/-- hal_timer_stop on a 32-bit device restores the compare-arming
invariant in every case: not linked (no-op), head removal with re-arm to
the next entry or disarm on empty, and non-head removal leaving the armed
head alone. -/
theorem stop_armedInv (t : hal_timer) (b : nrf51_hal_timer)
    (h16 : b.tmr_16bit = false) (hinv : armedInv b) :
    armedInv (hal_timer_stop (some t) b).2 := by
  by_cases hl : t.linked
  · simp only [hal_timer_stop]
    rw [if_pos hl]
    cases hq : b.hal_timer_q with
    | nil =>
      rw [if_neg (by simp)]
      constructor
      · intro _
        exact hinv.1 hq
      · intro h tl2 heq
        exact absurd heq (by simp [removeById])
    | cons h0 rest =>
      by_cases hid : h0.id = t.id
      · have hrm : removeById t.id (h0 :: rest) = rest := by
          rw [removeById, if_pos hid]
        rw [if_pos (by simp [hid]), hrm]
        cases rest with
        | nil =>
          constructor
          · intro _
            rfl
          · intro h tl2 heq
            exact absurd heq (by simp [nrf_timer_disable_ocmp])
        | cons e rest2 =>
          have hw := set_ocmp_wide { b with hal_timer_q := e :: rest2 } e.expiry h16
          constructor
          · intro hemp
            rw [set_ocmp_queue] at hemp
            exact absurd hemp (by simp)
          · intro h tl2 heq
            rw [set_ocmp_queue] at heq
            have hhe : e = h := by injection heq
            refine ⟨hw.1, ?_⟩
            rw [hw.2, hhe]
      · have hrm : removeById t.id (h0 :: rest) = h0 :: removeById t.id rest := by
          rw [removeById, if_neg hid]
        rw [if_neg (by simp [hid]), hrm]
        constructor
        · intro hemp
          exact absurd hemp (by simp)
        · intro h tl2 heq
          have hhe : h0 = h := by injection heq
          have hprev := hinv.2 h0 rest hq
          refine ⟨hprev.1, ?_⟩
          rw [← hhe]
          exact hprev.2
  · have hl2 : t.linked = false := by
      cases hlf : t.linked
      · rfl
      · exact absurd hlf hl
    simpa [hal_timer_stop, hl2] using hinv

/-- C1 amended.  On a 32-bit device every queue mutation re-establishes
the arming invariant: after a drain pass of hal_timer_chk_queue, after any
successful or failing hal_timer_start_at of a fresh timer (given the
invariant held before, covering the insert-at-head re-arm and the
untouched non-head case), and after hal_timer_stop, the hardware compare
interrupt is enabled with the compare register holding exactly the
current queue head expiry, and it is disabled when the queue is empty.
On a 16-bit device the equivalence fails: a head insertion whose epoch is
ahead of the current counter epoch intentionally leaves the compare
interrupt disabled with a non-empty queue (deferred to the overflow
interrupt), as the counterexample shows. -/
theorem C1_rearm_invariant (b : nrf51_hal_timer) (t : hal_timer) (tick : Nat)
    (h16 : b.tmr_16bit = false) (hinv : armedInv b)
    (hfresh : t.id ∉ b.hal_timer_q.map hal_timer.id) :
    armedInv (hal_timer_chk_queue b).1 ∧
    armedInv (hal_timer_start_at (some t) tick b).2.2 ∧
    armedInv (hal_timer_stop (some t) b).2 :=
  ⟨chk_queue_armedInv b h16, start_at_armedInv t tick b h16 hinv hfresh,
   stop_armedInv t b h16 hinv⟩

/-- C1 counterexample: on a 16-bit device at counter 0 (epoch 0), starting
a timer at absolute tick 131072 (epoch 2) succeeds and the timer becomes
the queue head, yet the compare interrupt is left disabled although the
queue is non-empty, refuting disabled-iff-empty as stated. -/
theorem C1_16bit_defer_counterexample :
    (hal_timer_start_at (some ⟨1, true, 131072, false⟩) 131072 dev16).1 = 0 ∧
    (hal_timer_start_at (some ⟨1, true, 131072, false⟩) 131072 dev16).2.2.hal_timer_q ≠ [] ∧
    (hal_timer_start_at (some ⟨1, true, 131072, false⟩) 131072 dev16).2.2.tmr_reg.inten_cmp
      = false := by
  decide

/-- The sample 32-bit device satisfies the arming invariant: compare armed
at 20, the head expiry. -/
theorem armedInv_devA : armedInv devA := by
  constructor
  · intro hemp
    exact absurd hemp (by decide)
  · intro h tl heq
    injection heq with h1 h2
    rw [← h1]
    exact ⟨rfl, rfl⟩

/-- Witness for C1 amended: after a drain pass on the sample device the
compare interrupt is armed (for the surviving head at tick 60). -/
theorem C1_rearm_invariant_witness :
    (hal_timer_chk_queue devA).1.tmr_reg.inten_cmp = true :=
  (((C1_rearm_invariant devA ⟨9, true, 70, false⟩ 70 rfl armedInv_devA
      (by decide)).1).2 ⟨3, true, 60, true⟩ [] (by decide)).1

end NRF51
